import Mathlib

/-!
# Verification of the Spot-Duo client-side cache core

Shallow embedding of `src/utils/cache.ts` (the `SimpleCache` class and the
`cacheKeys` builders) and of the invalidation sequence issued by
`createReview` in `src/hooks/useReviews.ts`.

Modelling conventions:
* The JavaScript `Map<string, CacheEntry<any>>` is an association list
  `List (String × CacheEntry α)`; `Map.get`/`Map.set`/`Map.delete` become
  `mapLookup`/`mapInsert`/`mapDelete`.
* JavaScript values of type `T | null` are `Option α` with `none` playing
  the role of `null`; `get` returning `null` for both "absent" and
  "cached null" is the flattening the source exhibits.
* `Date.now()` is an explicit `Int` parameter threaded through the
  operations (`getOrSet` receives two instants: one for its internal
  `get`, one for the `set` performed after the `await`).
* The truthiness tests `ttl || defaultTTL` and `groupId || 'all'` are
  `jsOrTTL` / `jsOrStr` (`0`, `undefined` and `""` are falsy).
* A rejected fetcher promise is `Except.error`; `getOrSet` returns the
  `Except` outcome together with the resulting store.
-/

/-- Embedding of `CacheEntry<T>` from `src/utils/cache.ts`:
`data` (with `none` = JS `null`), `timestamp` (ms), `ttl` (ms). -/
structure CacheEntry (α : Type) where
  data : Option α
  timestamp : Int
  ttl : Int
deriving DecidableEq, Repr

/-- The internal `Map<string, CacheEntry<any>>` of `SimpleCache`. -/
abbrev CMap (α : Type) := List (String × CacheEntry α)

/-- `Map.prototype.get`: first entry with the given key. -/
def mapLookup {α : Type} : CMap α → String → Option (CacheEntry α)
  | [], _ => none
  | e :: rest, k => if e.1 = k then some e.2 else mapLookup rest k

/-- `Map.prototype.set`: replace in place if the key is present, else append. -/
def mapInsert {α : Type} : CMap α → String → CacheEntry α → CMap α
  | [], k, v => [(k, v)]
  | e :: rest, k, v => if e.1 = k then (k, v) :: rest else e :: mapInsert rest k v

/-- `Map.prototype.delete`: remove the entry with the given key. -/
def mapDelete {α : Type} : CMap α → String → CMap α
  | [], _ => []
  | e :: rest, k => if e.1 = k then mapDelete rest k else e :: mapDelete rest k

/-- `private defaultTTL = 5 * 60 * 1000`. -/
def defaultTTL : Int := 5 * 60 * 1000

/-- The truthiness combination `ttl || this.defaultTTL` used by `set`
(`undefined` and `0` are falsy in JavaScript). -/
def jsOrTTL (ttl? : Option Int) : Int :=
  match ttl? with
  | none => defaultTTL
  | some t => if t = 0 then defaultTTL else t

/-- The truthiness combination `s || dflt` on strings (`undefined` and the
empty string are falsy in JavaScript). -/
def jsOrStr (s? : Option String) (dflt : String) : String :=
  match s? with
  | none => dflt
  | some s => if s = "" then dflt else s

namespace SimpleCache

variable {α : Type}

/-- `SimpleCache.get`: returns the entry's `data` if present and not
expired; if expired (`now - entry.timestamp > entry.ttl`) deletes the
entry and reports `null`.  Returns the value together with the mutated
store. -/
def get (m : CMap α) (key : String) (now : Int) : Option α × CMap α :=
  match mapLookup m key with
  | none => (none, m)
  | some entry =>
    if entry.ttl < now - entry.timestamp then (none, mapDelete m key)
    else (entry.data, m)

/-- `SimpleCache.set`: unconditionally stores
`{ data, timestamp: Date.now(), ttl: ttl || this.defaultTTL }`. -/
def set (m : CMap α) (key : String) (data : Option α) (ttl? : Option Int)
    (now : Int) : CMap α :=
  mapInsert m key ⟨data, now, jsOrTTL ttl?⟩

/-- `SimpleCache.delete`. -/
def delete (m : CMap α) (key : String) : CMap α := mapDelete m key

/-- `SimpleCache.clear`. -/
def clear (_ : CMap α) : CMap α := []

/-- `SimpleCache.invalidateCache`: the body is `this.cache.delete(key)`. -/
def invalidateCache (m : CMap α) (key : String) : CMap α := mapDelete m key

/-- `SimpleCache.getOrSet`: `get`; on a `null` result invoke the fetcher,
store its value with `set`, and return it.  A rejected fetcher
(`Except.error`) propagates and nothing is stored.  `nowGet` is the clock
at the internal `get`, `nowSet` the clock at the `set` after the await. -/
def getOrSet {ε : Type} (m : CMap α) (key : String)
    (fetcher : Except ε (Option α)) (ttl? : Option Int)
    (nowGet nowSet : Int) : Except ε (Option α) × CMap α :=
  let r := get m key nowGet
  match r.1 with
  | some c => (Except.ok (some c), r.2)
  | none =>
    match fetcher with
    | Except.error e => (Except.error e, r.2)
    | Except.ok data => (Except.ok data, set r.2 key data ttl? nowSet)

/-- Observation: `getOrSet` reaches its fetcher call exactly when the
internal `get` reported `null`. -/
def fetchReached (m : CMap α) (key : String) (now : Int) : Bool :=
  ((get m key now).1).isNone

end SimpleCache

/-! ### Association-list lemmas -/

theorem mapLookup_mapInsert_self {α : Type} (m : CMap α) (k : String)
    (v : CacheEntry α) : mapLookup (mapInsert m k v) k = some v := by
  induction m with
  | nil => simp [mapInsert, mapLookup]
  | cons e rest ih =>
    by_cases h : e.1 = k
    · simp [mapInsert, mapLookup, h]
    · simp [mapInsert, mapLookup, h, ih]

theorem mapLookup_mapInsert_ne {α : Type} (m : CMap α) (k k' : String)
    (v : CacheEntry α) (h : k' ≠ k) :
    mapLookup (mapInsert m k v) k' = mapLookup m k' := by
  induction m with
  | nil => simp [mapInsert, mapLookup, Ne.symm h]
  | cons e rest ih =>
    by_cases he : e.1 = k
    · have hek' : e.1 ≠ k' := by rw [he]; exact Ne.symm h
      simp [mapInsert, mapLookup, he, Ne.symm h, hek']
    · by_cases he' : e.1 = k'
      · simp [mapInsert, mapLookup, he, he', h]
      · simp [mapInsert, mapLookup, he, he', ih]

theorem mapLookup_mapDelete_self {α : Type} (m : CMap α) (k : String) :
    mapLookup (mapDelete m k) k = none := by
  induction m with
  | nil => simp [mapDelete, mapLookup]
  | cons e rest ih =>
    by_cases h : e.1 = k
    · simp [mapDelete, h, ih]
    · simp [mapDelete, mapLookup, h, ih]

theorem mapLookup_mapDelete_ne {α : Type} (m : CMap α) (k k' : String)
    (h : k' ≠ k) : mapLookup (mapDelete m k) k' = mapLookup m k' := by
  induction m with
  | nil => simp [mapDelete]
  | cons e rest ih =>
    by_cases he : e.1 = k
    · simp [mapDelete, mapLookup, he, Ne.symm h, ih]
    · by_cases he' : e.1 = k'
      · simp [mapDelete, mapLookup, he, he', h]
      · simp [mapDelete, mapLookup, he, he', ih]

theorem mapDelete_of_absent {α : Type} (m : CMap α) (k : String)
    (h : mapLookup m k = none) : mapDelete m k = m := by
  induction m with
  | nil => rfl
  | cons e rest ih =>
    by_cases he : e.1 = k
    · simp [mapLookup, he] at h
    · simp [mapLookup, he] at h
      simp [mapDelete, he, ih h]

/-! ### Pattern invalidation: a model of the JavaScript regular expressions
used by `SimpleCache.invalidatePattern`.

The source builds either `new RegExp(escaped(pattern))` (substring mode) or
`new RegExp(pattern)` (regex mode) and tests every key.  We model the
fragment of JavaScript regex syntax the cache relies on: literal
characters, backslash escapes, `.`, postfix `*`, a leading `^` anchor and
a trailing `$` anchor.  Patterns outside this fragment fail to parse
(modelling `RegExp` construction failure / unsupported syntax). -/

/-- The character class escaped by
`pattern.replace(/[.*+?^$\x7b\x7d()|[\]\\]/g, '\\$&')` in the source
(written there as `[.*+?^${}()|[\]\\]`). -/
def specialChars : List Char :=
  ['.', '*', '+', '?', '^', '$', '\x7b', '\x7d', '(', ')', '|', '[', ']', '\\']

/-- One regex atom: a literal character or the wildcard `.`. -/
inductive RItem where
  | lit (c : Char)
  | dot
deriving DecidableEq, Repr

/-- An atom with an optional postfix `*`. -/
structure RAtom where
  item : RItem
  star : Bool
deriving DecidableEq, Repr

/-- A parsed regex: optional `^` anchor, atom sequence, optional `$` anchor. -/
structure JSRegex where
  anchorStart : Bool
  atoms : List RAtom
  anchorEnd : Bool
deriving DecidableEq, Repr

/-- Prepend a pending atom (if any) with the given star flag. -/
def emit (p : Option RItem) (star : Bool) (as : List RAtom) : List RAtom :=
  match p with
  | none => as
  | some i => ⟨i, star⟩ :: as

/-- Parse the body of a regex (everything after a leading `^`).  `p` is the
previously read atom, kept pending so that a following `*` can attach to
it.  A final `$` becomes the end anchor. -/
def parseAux (p : Option RItem) : List Char → Option (List RAtom × Bool)
  | [] => some (emit p false [], false)
  | c :: rest =>
    if c = '$' ∧ rest = [] then some (emit p false [], true)
    else if c = '*' then
      match p with
      | none => none
      | some i => (parseAux none rest).map (fun r => (⟨i, true⟩ :: r.1, r.2))
    else if c = '\\' then
      match rest with
      | [] => none
      | d :: rest2 =>
        (parseAux (some (RItem.lit d)) rest2).map (fun r => (emit p false r.1, r.2))
    else if c = '.' then
      (parseAux (some RItem.dot) rest).map (fun r => (emit p false r.1, r.2))
    else if c ∈ specialChars then none
    else
      (parseAux (some (RItem.lit c)) rest).map (fun r => (emit p false r.1, r.2))

/-- Parse a full regex source string (`new RegExp(source)`). -/
def parseRegex (p : String) : Option JSRegex :=
  if p.data.head? = some '^' then
    (parseAux none p.data.tail).map (fun r => ⟨true, r.1, r.2⟩)
  else
    (parseAux none p.data).map (fun r => ⟨false, r.1, r.2⟩)

/-- JavaScript line terminators, which `.` does not match. -/
def isLineTerm (c : Char) : Bool :=
  c == '\n' || c == '\r' || c == Char.ofNat 0x2028 || c == Char.ofNat 0x2029

/-- Whether one atom matches one character. -/
def matchItem : RItem → Char → Bool
  | RItem.lit c, d => c == d
  | RItem.dot, d => !(isLineTerm d)

/-- Match an atom sequence against (a prefix of) `s`; when `ae` is set the
sequence must consume `s` entirely (trailing `$`). -/
def matchAtoms : List RAtom → Bool → List Char → Bool
  | [], ae, s => !ae || s.isEmpty
  | ⟨_, false⟩ :: _, _, [] => false
  | ⟨i, false⟩ :: rest, ae, c :: cs => matchItem i c && matchAtoms rest ae cs
  | ⟨_, true⟩ :: rest, ae, [] => matchAtoms rest ae []
  | ⟨i, true⟩ :: rest, ae, c :: cs =>
      matchAtoms rest ae (c :: cs) || (matchItem i c && matchAtoms (⟨i, true⟩ :: rest) ae cs)
termination_by as _ s => (s.length, as.length)

/-- Unanchored search: try a match at every start position. -/
def searchFrom (ats : List RAtom) (ae : Bool) : List Char → Bool
  | [] => matchAtoms ats ae []
  | c :: cs => matchAtoms ats ae (c :: cs) || searchFrom ats ae cs

/-- `RegExp.prototype.test`. -/
def regexTest (r : JSRegex) (s : String) : Bool :=
  if r.anchorStart then matchAtoms r.atoms r.anchorEnd s.data
  else searchFrom r.atoms r.anchorEnd s.data

/-- `escapeChar`: the per-character effect of
`pattern.replace(..., '\\$&')`. -/
def escapeChar (c : Char) : List Char :=
  if c ∈ specialChars then ['\\', c] else [c]

/-- The escaped character list of a whole pattern. -/
def escList : List Char → List Char
  | [] => []
  | c :: cs => escapeChar c ++ escList cs

/-- The escaped pattern string built in substring mode. -/
def escapeRegex (p : String) : String := ⟨escList p.data⟩

/-- Contiguous-sublist (substring) test on character lists. -/
def isSubChars (p : List Char) : List Char → Bool
  | [] => p.isPrefixOf []
  | c :: cs => p.isPrefixOf (c :: cs) || isSubChars p cs

/-- `String.prototype.includes`: substring containment. -/
def containsSub (needle hay : String) : Bool := isSubChars needle.data hay.data

/-- The metacharacter sniffing of `invalidatePattern`:
`!pattern.includes('^') && !pattern.includes('$') && !pattern.includes('.*')`. -/
def isSimplePattern (p : String) : Bool :=
  !(containsSub "^" p) && !(containsSub "$" p) && !(containsSub ".*" p)

/-- `SimpleCache.invalidatePattern`: escape when simple, build the regex,
delete every key the regex tests positive on.  `none` models a failing
`new RegExp(...)` (or syntax outside the modelled fragment). -/
def invalidatePattern {α : Type} (m : CMap α) (pattern : String) :
    Option (CMap α) :=
  let source := if isSimplePattern pattern then escapeRegex pattern else pattern
  match parseRegex source with
  | none => none
  | some r => some (m.filter (fun e => !(regexTest r e.1)))

/-- The atom list of a literal (fully escaped) pattern. -/
def litAtoms (cs : List Char) : List RAtom :=
  cs.map (fun c => ⟨RItem.lit c, false⟩)

/-! ### Substring mode is literal-substring search -/

theorem escList_head_ne_caret (cs : List Char) :
    (escList cs).head? ≠ some '^' := by
  cases cs with
  | nil => simp [escList]
  | cons c cs =>
    by_cases h : c ∈ specialChars
    · simp [escList, escapeChar, h]
    · simp [escList, escapeChar, h]
      intro hc
      exact h (by rw [hc]; decide)

theorem parseAux_escList (cs : List Char) :
    ∀ p, parseAux p (escList cs) = some (emit p false (litAtoms cs), false) := by
  induction cs with
  | nil => intro p; rfl
  | cons c cs ih =>
    intro p
    by_cases h : c ∈ specialChars
    · have e1 : escList (c :: cs) = '\\' :: c :: escList cs := by
        simp [escList, escapeChar, h]
      rw [e1]
      simp [parseAux, ih, emit, litAtoms]
    · have e1 : escList (c :: cs) = c :: escList cs := by
        simp [escList, escapeChar, h]
      have h1 : c ≠ '$' := by intro hc; exact h (by rw [hc]; decide)
      have h2 : c ≠ '*' := by intro hc; exact h (by rw [hc]; decide)
      have h3 : c ≠ '\\' := by intro hc; exact h (by rw [hc]; decide)
      have h4 : c ≠ '.' := by intro hc; exact h (by rw [hc]; decide)
      rw [e1, parseAux.eq_def]
      simp [h, h1, h2, h3, h4, ih, emit, litAtoms]

theorem parseRegex_escapeRegex (s : String) :
    parseRegex (escapeRegex s) = some ⟨false, litAtoms s.data, false⟩ := by
  have hdata : (escapeRegex s).data = escList s.data := rfl
  unfold parseRegex
  rw [hdata, if_neg (escList_head_ne_caret s.data), parseAux_escList]
  rfl

theorem matchAtoms_litAtoms (p : List Char) :
    ∀ s, matchAtoms (litAtoms p) false s = p.isPrefixOf s := by
  induction p with
  | nil => intro s; cases s <;> simp [litAtoms, matchAtoms, List.isPrefixOf]
  | cons c p ih =>
    intro s
    cases s with
    | nil => simp [litAtoms, matchAtoms, List.isPrefixOf]
    | cons d s =>
      simp only [litAtoms] at ih
      simp [litAtoms, matchAtoms, List.isPrefixOf, matchItem, ih]

theorem searchFrom_litAtoms (p : List Char) :
    ∀ s, searchFrom (litAtoms p) false s = isSubChars p s := by
  intro s
  induction s with
  | nil => simp [searchFrom, isSubChars, matchAtoms_litAtoms]
  | cons c s ih => simp [searchFrom, isSubChars, matchAtoms_litAtoms, ih]

theorem isSubChars_infix_iff (p : List Char) :
    ∀ s, isSubChars p s = true ↔ p <:+: s := by
  intro s
  induction s with
  | nil => simp [isSubChars, List.isPrefixOf_iff_prefix]
  | cons c s ih =>
    simp [isSubChars, List.isPrefixOf_iff_prefix, ih, List.infix_cons_iff]

theorem mapLookup_filterKey {α : Type} (q : String → Bool) (m : CMap α)
    (k : String) :
    mapLookup (m.filter (fun e => q e.1)) k
      = if q k then mapLookup m k else none := by
  induction m with
  | nil => cases hq : q k <;> simp [mapLookup, hq]
  | cons e rest ih =>
    by_cases hek : e.1 = k
    · subst hek
      cases hq : q e.1 <;> simp [List.filter_cons, hq, mapLookup, ih]
    · cases hq : q e.1 <;> simp [List.filter_cons, hq, mapLookup, hek, ih]

theorem invalidatePattern_simple {α : Type} (m : CMap α) (p : String)
    (h : isSimplePattern p = true) :
    invalidatePattern m p
      = some (m.filter (fun e => !(containsSub p e.1))) := by
  unfold invalidatePattern
  rw [if_pos h]
  simp only [parseRegex_escapeRegex]
  congr 1
  apply List.filter_congr
  intro e _
  simp [regexTest, searchFrom_litAtoms, containsSub]

/-! ### Key namespace (`cacheKeys`) and the `createReview` invalidation
sequence from `src/hooks/useReviews.ts` -/

namespace cacheKeys

/-- `place: (id) => ` the template literal `place:ID`. -/
def place (id : String) : String := "place:" ++ id

/-- `placeReviews: (id, groupId?) => place:ID:reviews:GROUP-OR-all`. -/
def placeReviews (id : String) (groupId : Option String) : String :=
  "place:" ++ id ++ ":reviews:" ++ jsOrStr groupId "all"

/-- `userReviews: (userId, groupId?) => user:UID:reviews:GROUP-OR-all`. -/
def userReviews (userId : String) (groupId : Option String) : String :=
  "user:" ++ userId ++ ":reviews:" ++ jsOrStr groupId "all"

/-- `userGroups: (userId) => user:UID:groups`. -/
def userGroups (userId : String) : String := "user:" ++ userId ++ ":groups"

/-- `groupMembers: (groupId) => group:GID:members`. -/
def groupMembers (groupId : String) : String := "group:" ++ groupId ++ ":members"

/-- `placesWithReviews: (groupId?) => places:reviews:GROUP-OR-all`. -/
def placesWithReviews (groupId : Option String) : String :=
  "places:reviews:" ++ jsOrStr groupId "all"

end cacheKeys

/-- The eight keys passed to `cache.invalidateCache` by `createReview`
after a successful write (`useReviews.ts`, with
`groupIdKey = review.group_id || 'no-group'`). -/
def createReviewInvalidationKeys (placeId userId : String)
    (group_id : Option String) : List String :=
  let groupIdKey := jsOrStr group_id "no-group"
  [ "place:" ++ placeId ++ ":reviews:" ++ groupIdKey
  , "place:" ++ placeId ++ ":reviews:all"
  , "user:" ++ userId ++ ":reviews:" ++ groupIdKey
  , "user:" ++ userId ++ ":reviews:all"
  , "places:reviews:" ++ groupIdKey
  , "places:reviews:all"
  , "place-summary:" ++ placeId ++ ":" ++ groupIdKey
  , "place-summary:" ++ placeId ++ ":all" ]

/-- A sequence of `invalidateCache` calls, in order. -/
def invalidateKeys {α : Type} (m : CMap α) (ks : List String) : CMap α :=
  ks.foldl (fun acc k => SimpleCache.invalidateCache acc k) m

/-- The cache effect of `createReview`'s invalidation block. -/
def createReviewInvalidate {α : Type} (placeId userId : String)
    (group_id : Option String) (m : CMap α) : CMap α :=
  invalidateKeys m (createReviewInvalidationKeys placeId userId group_id)

/-- The subset of `createReview`'s deletions that carry the `no-group`
sentinel (issued when `review.group_id` is absent). -/
def noGroupInvalidationKeys (placeId userId : String) : List String :=
  [ "place:" ++ placeId ++ ":reviews:no-group"
  , "user:" ++ userId ++ ":reviews:no-group"
  , "places:reviews:no-group"
  , "place-summary:" ++ placeId ++ ":no-group" ]

/-- A builder argument that is a plausible entity/group identifier: it
contains no `:` (the namespace delimiter) and is not the literal sentinel
`no-group`. -/
def CleanArg (s : String) : Prop := ':' ∉ s.data ∧ s ≠ "no-group"

/-- A clean optional scope argument. -/
def CleanScope : Option String → Prop
  | none => True
  | some s => CleanArg s

/-- Keys produced by the `cacheKeys` builders from clean arguments. -/
inductive BuiltKey : String → Prop where
  | place (id : String) : CleanArg id → BuiltKey (cacheKeys.place id)
  | placeReviews (id : String) (g? : Option String) :
      CleanArg id → CleanScope g? → BuiltKey (cacheKeys.placeReviews id g?)
  | userReviews (u : String) (g? : Option String) :
      CleanArg u → CleanScope g? → BuiltKey (cacheKeys.userReviews u g?)
  | userGroups (u : String) : CleanArg u → BuiltKey (cacheKeys.userGroups u)
  | groupMembers (g : String) : CleanArg g → BuiltKey (cacheKeys.groupMembers g)
  | placesWithReviews (g? : Option String) :
      CleanScope g? → BuiltKey (cacheKeys.placesWithReviews g?)

/-! ### String helper lemmas -/

theorem strExt {s t : String} (h : s.data = t.data) : s = t := by
  cases s; cases t; exact congrArg String.mk h

theorem strAppend_cancel_left {a b c : String} (h : a ++ b = a ++ c) :
    b = c := by
  have hd := congrArg String.data h
  simp only [String.data_append] at hd
  exact strExt (List.append_cancel_left hd)

theorem ne_of_data_ne {s t : String} (h : s.data ≠ t.data) : s ≠ t :=
  fun he => h (he ▸ rfl)

/-- Number of `:` delimiters in a string. -/
def colonCount (s : String) : Nat := s.data.count ':'

theorem colonCount_append (a b : String) :
    colonCount (a ++ b) = colonCount a + colonCount b := by
  simp [colonCount, String.data_append, List.count_append]

theorem colonCount_of_noColon {s : String} (h : ':' ∉ s.data) :
    colonCount s = 0 := List.count_eq_zero.mpr h

theorem ne_of_colonCount {s t : String} (h : colonCount s ≠ colonCount t) :
    s ≠ t := fun he => h (he ▸ rfl)

theorem colonFree_split (a : List Char) : ∀ (b u v : List Char),
    ':' ∉ a → ':' ∉ b → a ++ ':' :: u = b ++ ':' :: v → a = b ∧ u = v := by
  induction a with
  | nil =>
    intro b u v _ hb h
    cases b with
    | nil => simp at h; exact ⟨rfl, h⟩
    | cons x bs =>
      simp at h
      exact absurd (h.1 ▸ List.mem_cons_self x bs) (h.1 ▸ hb)
  | cons x as ih =>
    intro b u v ha hb h
    cases b with
    | nil =>
      simp at h
      exact absurd (h.1 ▸ List.mem_cons_self x as) (h.1 ▸ ha)
    | cons y bs =>
      simp only [List.cons_append, List.cons.injEq] at h
      have ha' : ':' ∉ as := fun hm => ha (List.mem_cons_of_mem x hm)
      have hb' : ':' ∉ bs := fun hm => hb (List.mem_cons_of_mem y hm)
      obtain ⟨hab, hr⟩ := ih bs u v ha' hb' h.2
      exact ⟨by rw [h.1, hab], hr⟩

theorem jsOrStr_all_clean (g? : Option String) (h : CleanScope g?) :
    ':' ∉ (jsOrStr g? "all").data ∧ jsOrStr g? "all" ≠ "no-group" := by
  cases g? with
  | none => exact ⟨by decide, by decide⟩
  | some g =>
    by_cases hg : g = ""
    · simp only [jsOrStr, if_pos hg]
      exact ⟨by decide, by decide⟩
    · simp only [jsOrStr, if_neg hg]
      exact ⟨h.1, h.2⟩

theorem mapLookup_eq_none_of_no_key {α : Type} (m : CMap α) (k : String)
    (h : ∀ e ∈ m, e.1 ≠ k) : mapLookup m k = none := by
  induction m with
  | nil => rfl
  | cons e rest ih =>
    have he : e.1 ≠ k := h e (List.mem_cons_self e rest)
    simp [mapLookup, he]
    exact ih (fun e' hm => h e' (List.mem_cons_of_mem e hm))

theorem mapLookup_invalidateKeys {α : Type} (ks : List String) :
    ∀ (m : CMap α) (k : String),
    mapLookup (invalidateKeys m ks) k
      = if k ∈ ks then none else mapLookup m k := by
  induction ks with
  | nil => intro m k; simp [invalidateKeys]
  | cons k0 ks ih =>
    intro m k
    have step : invalidateKeys m (k0 :: ks)
        = invalidateKeys (SimpleCache.invalidateCache m k0) ks := rfl
    rw [step, ih]
    by_cases hk : k ∈ ks
    · simp [hk]
    · by_cases hk0 : k = k0
      · subst hk0
        simp [hk, SimpleCache.invalidateCache, mapLookup_mapDelete_self]
      · simp [hk, hk0, SimpleCache.invalidateCache,
          mapLookup_mapDelete_ne m k0 k hk0]

theorem invalidateKeys_of_absent {α : Type} (ks : List String) :
    ∀ (m : CMap α), (∀ k ∈ ks, mapLookup m k = none) →
    invalidateKeys m ks = m := by
  induction ks with
  | nil => intro m _; rfl
  | cons k0 ks ih =>
    intro m h
    have h0 : mapLookup m k0 = none := h k0 (List.mem_cons_self k0 ks)
    have step : invalidateKeys m (k0 :: ks)
        = invalidateKeys (SimpleCache.invalidateCache m k0) ks := rfl
    rw [step]
    have hdel : SimpleCache.invalidateCache m k0 = m :=
      mapDelete_of_absent m k0 h0
    rw [hdel]
    exact ih m (fun k hk => h k (List.mem_cons_of_mem k0 hk))

/-! ### Builder keys never alias the `no-group` sentinel keys -/

theorem colonCount_place (id : String) (h : ':' ∉ id.data) :
    colonCount (cacheKeys.place id) = 1 := by
  rw [cacheKeys.place, colonCount_append, colonCount_of_noColon h]
  decide

theorem colonCount_placeReviews (id : String) (g? : Option String)
    (h : ':' ∉ id.data) (hg : CleanScope g?) :
    colonCount (cacheKeys.placeReviews id g?) = 3 := by
  obtain ⟨hx, _⟩ := jsOrStr_all_clean g? hg
  rw [cacheKeys.placeReviews, colonCount_append, colonCount_append,
    colonCount_append, colonCount_of_noColon h, colonCount_of_noColon hx]
  decide

theorem colonCount_userReviews (u : String) (g? : Option String)
    (h : ':' ∉ u.data) (hg : CleanScope g?) :
    colonCount (cacheKeys.userReviews u g?) = 3 := by
  obtain ⟨hx, _⟩ := jsOrStr_all_clean g? hg
  rw [cacheKeys.userReviews, colonCount_append, colonCount_append,
    colonCount_append, colonCount_of_noColon h, colonCount_of_noColon hx]
  decide

theorem colonCount_userGroups (u : String) (h : ':' ∉ u.data) :
    colonCount (cacheKeys.userGroups u) = 2 := by
  rw [cacheKeys.userGroups, colonCount_append, colonCount_append,
    colonCount_of_noColon h]
  decide

theorem colonCount_groupMembers (g : String) (h : ':' ∉ g.data) :
    colonCount (cacheKeys.groupMembers g) = 2 := by
  rw [cacheKeys.groupMembers, colonCount_append, colonCount_append,
    colonCount_of_noColon h]
  decide

theorem colonCount_placesWithReviews (g? : Option String)
    (hg : CleanScope g?) :
    colonCount (cacheKeys.placesWithReviews g?) = 2 := by
  obtain ⟨hx, _⟩ := jsOrStr_all_clean g? hg
  rw [cacheKeys.placesWithReviews, colonCount_append, colonCount_of_noColon hx]
  decide

theorem colonCount_noGroupT1 (P : String) (hP : ':' ∉ P.data) :
    colonCount ("place:" ++ P ++ ":reviews:no-group") = 3 := by
  rw [colonCount_append, colonCount_append, colonCount_of_noColon hP]
  decide

theorem colonCount_noGroupT2 (U : String) (hU : ':' ∉ U.data) :
    colonCount ("user:" ++ U ++ ":reviews:no-group") = 3 := by
  rw [colonCount_append, colonCount_append, colonCount_of_noColon hU]
  decide

theorem colonCount_noGroupT4 (P : String) (hP : ':' ∉ P.data) :
    colonCount ("place-summary:" ++ P ++ ":no-group") = 2 := by
  rw [colonCount_append, colonCount_append, colonCount_of_noColon hP]
  decide

theorem placeReviews_ne_T1 (id P x : String) (hid : ':' ∉ id.data)
    (hP : ':' ∉ P.data) (hx2 : x ≠ "no-group") :
    "place:" ++ id ++ ":reviews:" ++ x
      ≠ "place:" ++ P ++ ":reviews:no-group" := by
  intro h
  have hd := congrArg String.data h
  simp only [String.data_append, List.append_assoc] at hd
  have h1 := List.append_cancel_left hd
  obtain ⟨_, h2⟩ := colonFree_split id.data P.data
    ("reviews".data ++ ':' :: x.data)
    ("reviews".data ++ ':' :: "no-group".data) hid hP h1
  have h3 := List.append_cancel_left h2
  injection h3 with _ h4
  exact hx2 (strExt h4)

theorem userReviews_ne_T2 (u U x : String) (hu : ':' ∉ u.data)
    (hU : ':' ∉ U.data) (hx2 : x ≠ "no-group") :
    "user:" ++ u ++ ":reviews:" ++ x
      ≠ "user:" ++ U ++ ":reviews:no-group" := by
  intro h
  have hd := congrArg String.data h
  simp only [String.data_append, List.append_assoc] at hd
  have h1 := List.append_cancel_left hd
  obtain ⟨_, h2⟩ := colonFree_split u.data U.data
    ("reviews".data ++ ':' :: x.data)
    ("reviews".data ++ ':' :: "no-group".data) hu hU h1
  have h3 := List.append_cancel_left h2
  injection h3 with _ h4
  exact hx2 (strExt h4)

theorem builtKey_ne_noGroupKeys (P U k : String) (hP : ':' ∉ P.data)
    (hU : ':' ∉ U.data) (hk : BuiltKey k) :
    k ∉ noGroupInvalidationKeys P U := by
  intro hmem
  simp only [noGroupInvalidationKeys, List.mem_cons, List.not_mem_nil,
    or_false] at hmem
  cases hk with
  | place id hid =>
    have hc := colonCount_place id hid.1
    rcases hmem with h | h | h | h
    · rw [h, colonCount_noGroupT1 P hP] at hc; exact absurd hc (by decide)
    · rw [h, colonCount_noGroupT2 U hU] at hc; exact absurd hc (by decide)
    · rw [h] at hc
      exact absurd hc (by decide)
    · rw [h, colonCount_noGroupT4 P hP] at hc; exact absurd hc (by decide)
  | placeReviews id g? hid hg =>
    have hc := colonCount_placeReviews id g? hid.1 hg
    obtain ⟨hxc, hx2⟩ := jsOrStr_all_clean g? hg
    rcases hmem with h | h | h | h
    · exact placeReviews_ne_T1 id P (jsOrStr g? "all") hid.1 hP hx2 h
    · have hfst : (some 'p' : Option Char) = some 'u' :=
        congrArg (fun s : String => s.data[0]?) h
      exact absurd hfst (by decide)
    · rw [h] at hc
      exact absurd hc (by decide)
    · rw [h, colonCount_noGroupT4 P hP] at hc; exact absurd hc (by decide)
  | userReviews u g? hu2 hg =>
    have hc := colonCount_userReviews u g? hu2.1 hg
    obtain ⟨hxc, hx2⟩ := jsOrStr_all_clean g? hg
    rcases hmem with h | h | h | h
    · have hfst : (some 'u' : Option Char) = some 'p' :=
        congrArg (fun s : String => s.data[0]?) h
      exact absurd hfst (by decide)
    · exact userReviews_ne_T2 u U (jsOrStr g? "all") hu2.1 hU hx2 h
    · rw [h] at hc
      exact absurd hc (by decide)
    · rw [h, colonCount_noGroupT4 P hP] at hc; exact absurd hc (by decide)
  | userGroups u hu2 =>
    have hc := colonCount_userGroups u hu2.1
    rcases hmem with h | h | h | h
    · rw [h, colonCount_noGroupT1 P hP] at hc; exact absurd hc (by decide)
    · rw [h, colonCount_noGroupT2 U hU] at hc; exact absurd hc (by decide)
    · have hfst : (some 'u' : Option Char) = some 'p' :=
        congrArg (fun s : String => s.data[0]?) h
      exact absurd hfst (by decide)
    · have hfst : (some 'u' : Option Char) = some 'p' :=
        congrArg (fun s : String => s.data[0]?) h
      exact absurd hfst (by decide)
  | groupMembers g hg2 =>
    have hc := colonCount_groupMembers g hg2.1
    rcases hmem with h | h | h | h
    · rw [h, colonCount_noGroupT1 P hP] at hc; exact absurd hc (by decide)
    · rw [h, colonCount_noGroupT2 U hU] at hc; exact absurd hc (by decide)
    · have hfst : (some 'g' : Option Char) = some 'p' :=
        congrArg (fun s : String => s.data[0]?) h
      exact absurd hfst (by decide)
    · have hfst : (some 'g' : Option Char) = some 'p' :=
        congrArg (fun s : String => s.data[0]?) h
      exact absurd hfst (by decide)
  | placesWithReviews g? hg =>
    have hc := colonCount_placesWithReviews g? hg
    obtain ⟨hxc, hx2⟩ := jsOrStr_all_clean g? hg
    rcases hmem with h | h | h | h
    · rw [h, colonCount_noGroupT1 P hP] at hc; exact absurd hc (by decide)
    · rw [h, colonCount_noGroupT2 U hU] at hc; exact absurd hc (by decide)
    · have h2 : "places:reviews:" ++ jsOrStr g? "all"
          = "places:reviews:" ++ "no-group" := h
      exact hx2 (strAppend_cancel_left h2)
    · have hfst : (some 's' : Option Char) = some '-' :=
        congrArg (fun s : String => s.data[5]?) h
      exact absurd hfst (by decide)

/-! ### Characterizations of `get` and `getOrSet` -/

theorem get_eq_of_lookup_valid {α : Type} {m : CMap α} {k : String}
    {en : CacheEntry α} {now : Int} (h : mapLookup m k = some en)
    (hv : ¬ en.ttl < now - en.timestamp) :
    SimpleCache.get m k now = (en.data, m) := by
  unfold SimpleCache.get
  rw [h]
  simp [hv]

theorem get_eq_of_lookup_expired {α : Type} {m : CMap α} {k : String}
    {en : CacheEntry α} {now : Int} (h : mapLookup m k = some en)
    (hv : en.ttl < now - en.timestamp) :
    SimpleCache.get m k now = (none, mapDelete m k) := by
  unfold SimpleCache.get
  rw [h]
  simp [hv]

theorem get_eq_of_lookup_none {α : Type} {m : CMap α} {k : String}
    {now : Int} (h : mapLookup m k = none) :
    SimpleCache.get m k now = (none, m) := by
  unfold SimpleCache.get
  rw [h]

theorem get_snd_frame {α : Type} (m : CMap α) (k k' : String) (now : Int)
    (h : k' ≠ k) :
    mapLookup (SimpleCache.get m k now).2 k' = mapLookup m k' := by
  unfold SimpleCache.get
  cases hl : mapLookup m k with
  | none => rfl
  | some en =>
    by_cases hv : en.ttl < now - en.timestamp
    · simp [hv, mapLookup_mapDelete_ne m k k' h]
    · simp [hv]

theorem getOrSet_hit {α ε : Type} {m : CMap α} {k : String} {c : α}
    (ttl? : Option Int) (nowG nowS : Int) (f : Except ε (Option α))
    (h : (SimpleCache.get m k nowG).1 = some c) :
    SimpleCache.getOrSet m k f ttl? nowG nowS
      = (Except.ok (some c), (SimpleCache.get m k nowG).2) := by
  simp only [SimpleCache.getOrSet, h]

theorem getOrSet_miss_error {α ε : Type} {m : CMap α} {k : String}
    (ttl? : Option Int) (nowG nowS : Int) (e : ε)
    (h : (SimpleCache.get m k nowG).1 = none) :
    SimpleCache.getOrSet m k (Except.error e) ttl? nowG nowS
      = (Except.error e, (SimpleCache.get m k nowG).2) := by
  simp only [SimpleCache.getOrSet, h]

theorem getOrSet_miss_ok {α ε : Type} {m : CMap α} {k : String}
    (ttl? : Option Int) (nowG nowS : Int) (d : Option α)
    (h : (SimpleCache.get m k nowG).1 = none) :
    SimpleCache.getOrSet m k (Except.ok d : Except ε (Option α)) ttl? nowG nowS
      = (Except.ok d,
         SimpleCache.set (SimpleCache.get m k nowG).2 k d ttl? nowS) := by
  simp only [SimpleCache.getOrSet, h]

theorem jsOrTTL_of_ne_zero {ttl : Int} (h : ttl ≠ 0) :
    jsOrTTL (some ttl) = ttl := by
  simp [jsOrTTL, h]

/-! ## Claim theorems -/

/-- C1 (amended: the requested `ttl` must be nonzero, since
`set` replaces a falsy `0` by the 5-minute default): after
`set(k, v, ttl)` at time `t₀`, a `get(k)` at any time `t` with
`t - t₀ ≤ ttl` returns `v`; at any `t` with `t - t₀ > ttl` it returns
missing and deletes the entry, and every subsequent `get(k)` (with no
intervening `set`) still returns missing and leaves the store unchanged
(lazy eviction, no resurrection). -/
theorem claim_C1_ttl_expiry {α : Type} (m : CMap α) (k : String)
    (v : Option α) (ttl t₀ t : Int) (httl : ttl ≠ 0) :
    (t - t₀ ≤ ttl →
      (SimpleCache.get (SimpleCache.set m k v (some ttl) t₀) k t).1 = v) ∧
    (ttl < t - t₀ →
      (SimpleCache.get (SimpleCache.set m k v (some ttl) t₀) k t).1 = none ∧
      mapLookup (SimpleCache.get (SimpleCache.set m k v (some ttl) t₀) k t).2 k
        = none ∧
      ∀ t', SimpleCache.get
              (SimpleCache.get (SimpleCache.set m k v (some ttl) t₀) k t).2 k t'
            = (none,
               (SimpleCache.get (SimpleCache.set m k v (some ttl) t₀) k t).2)) := by
  have hl : mapLookup (SimpleCache.set m k v (some ttl) t₀) k
      = some ⟨v, t₀, jsOrTTL (some ttl)⟩ :=
    mapLookup_mapInsert_self m k ⟨v, t₀, jsOrTTL (some ttl)⟩
  constructor
  · intro hle
    have hcond : ¬ (jsOrTTL (some ttl) < t - t₀) := by
      rw [jsOrTTL_of_ne_zero httl]
      exact not_lt.mpr hle
    rw [get_eq_of_lookup_valid hl hcond]
  · intro hlt
    have hcond : jsOrTTL (some ttl) < t - t₀ := by
      rw [jsOrTTL_of_ne_zero httl]
      exact hlt
    have hexp := get_eq_of_lookup_expired hl hcond
    rw [hexp]
    have habs : mapLookup (mapDelete (SimpleCache.set m k v (some ttl) t₀) k) k
        = none := mapLookup_mapDelete_self _ k
    exact ⟨rfl, habs, fun t' => get_eq_of_lookup_none habs⟩

/-- Witness for C1 at a concrete input: `set("k", 5, 1000)` at time 0 is a
hit at time 500 and an evicted miss at time 2000. -/
theorem claim_C1_ttl_expiry_witness :
    (SimpleCache.get (SimpleCache.set ([] : CMap Nat) "k" (some 5) (some 1000) 0)
        "k" 500).1 = some 5 ∧
    (SimpleCache.get (SimpleCache.set ([] : CMap Nat) "k" (some 5) (some 1000) 0)
        "k" 2000).1 = none := by
  constructor
  · exact (claim_C1_ttl_expiry [] "k" (some 5) 1000 0 500 (by decide)).1 (by decide)
  · exact ((claim_C1_ttl_expiry [] "k" (some 5) 1000 0 2000 (by decide)).2
      (by decide)).1

/-- C1 counterexample, as stated over every `ttl`: with `ttl = 0` the
entry is stored with the 5-minute default (`ttl || defaultTTL`), so at
time 1 — strictly past the requested `ttl` of 0, where the claim demands a
miss — `get` still returns the value. -/
theorem claim_C1_counterexample_zero_ttl :
    (0 : Int) < 1 - 0 ∧
    (SimpleCache.get (SimpleCache.set ([] : CMap Nat) "k" (some 42) (some 0) 0)
        "k" 1).1 = some 42 := by
  exact ⟨by decide, by decide⟩

/-- C8: a requested TTL of zero is silently replaced by the 5-minute
default: `set(k, v, 0)` stores the entry with `ttl = defaultTTL = 300000`,
so immediate expiry cannot be requested and `get(k)` within 5 minutes
still returns `v`. -/
theorem claim_C8_zero_ttl_default {α : Type} (m : CMap α) (k : String)
    (v : Option α) (t₀ t : Int) :
    defaultTTL = 5 * 60 * 1000 ∧
    mapLookup (SimpleCache.set m k v (some 0) t₀) k = some ⟨v, t₀, defaultTTL⟩ ∧
    (t - t₀ ≤ defaultTTL →
      (SimpleCache.get (SimpleCache.set m k v (some 0) t₀) k t).1 = v) := by
  have hl : mapLookup (SimpleCache.set m k v (some 0) t₀) k
      = some ⟨v, t₀, defaultTTL⟩ :=
    mapLookup_mapInsert_self m k ⟨v, t₀, defaultTTL⟩
  refine ⟨rfl, hl, fun hle => ?_⟩
  rw [get_eq_of_lookup_valid hl (not_lt.mpr hle)]

/-- Witness for C8: `set(k, 7, 0)` at time 0 still serves the value at
time 300000 (the default-TTL boundary). -/
theorem claim_C8_witness :
    (SimpleCache.get (SimpleCache.set ([] : CMap Nat) "k" (some 7) (some 0) 0)
        "k" 300000).1 = some 7 :=
  (claim_C8_zero_ttl_default [] "k" (some 7) 0 300000).2.2 (by decide)

/-- C10: `invalidateCache` is an alias of `delete`: same resulting state
on every input, removes the entry when present, and is a no-op (raising
nothing — both are total functions) when the key is absent. -/
theorem claim_C10_invalidateCache_alias {α : Type} (m : CMap α) (k : String) :
    SimpleCache.invalidateCache m k = SimpleCache.delete m k ∧
    mapLookup (SimpleCache.invalidateCache m k) k = none ∧
    (mapLookup m k = none → SimpleCache.invalidateCache m k = m) :=
  ⟨rfl, mapLookup_mapDelete_self m k, fun h => mapDelete_of_absent m k h⟩

/-- Witness for C10: deleting an absent key leaves a concrete store
untouched. -/
theorem claim_C10_witness :
    SimpleCache.invalidateCache [("b", (⟨some 1, 0, 5⟩ : CacheEntry Nat))] "a"
      = [("b", (⟨some 1, 0, 5⟩ : CacheEntry Nat))] :=
  (claim_C10_invalidateCache_alias [("b", (⟨some 1, 0, 5⟩ : CacheEntry Nat))]
    "a").2.2 (by decide)

/-- C3 (amended: on the hit path the still-valid entry must hold a
non-null value, since a cached null is treated as a miss and does reach
the fetcher): if `getOrSet` reaches the fetch (`get(k)` returned null) and
the fetcher rejects, the error propagates unmodified, nothing is stored
(the result store is exactly the post-`get` store), and no entry other
than `k`'s is removed or modified; if `k` held a still-valid non-null
entry at call time, `getOrSet` returns it unchanged for every fetcher. -/
theorem claim_C3_fetch_failure_atomicity {α ε : Type} (m : CMap α)
    (k : String) (ttl? : Option Int) (nowG nowS : Int) (e : ε) :
    (∀ (en : CacheEntry α) (c : α), mapLookup m k = some en →
      nowG - en.timestamp ≤ en.ttl → en.data = some c →
      ∀ f : Except ε (Option α),
        SimpleCache.getOrSet m k f ttl? nowG nowS = (Except.ok (some c), m)) ∧
    ((SimpleCache.get m k nowG).1 = none →
      SimpleCache.getOrSet m k (Except.error e) ttl? nowG nowS
        = (Except.error e, (SimpleCache.get m k nowG).2) ∧
      (∀ k', k' ≠ k →
        mapLookup (SimpleCache.get m k nowG).2 k' = mapLookup m k')) := by
  constructor
  · intro en c hl hv hd f
    have hget : SimpleCache.get m k nowG = (en.data, m) :=
      get_eq_of_lookup_valid hl (not_lt.mpr hv)
    have h1 : (SimpleCache.get m k nowG).1 = some c := by rw [hget, hd]
    rw [getOrSet_hit ttl? nowG nowS f h1, hget]
  · intro hmiss
    exact ⟨getOrSet_miss_error ttl? nowG nowS e hmiss,
           fun k' hk' => get_snd_frame m k k' nowG hk'⟩

/-- Witness for C3: a still-valid non-null entry is served untouched even
when the supplied fetcher would reject. -/
theorem claim_C3_witness :
    SimpleCache.getOrSet [("k", (⟨some 9, 0, 1000⟩ : CacheEntry Nat))] "k"
        (Except.error 3 : Except Nat (Option Nat)) none 0 0
      = (Except.ok (some 9), [("k", (⟨some 9, 0, 1000⟩ : CacheEntry Nat))]) :=
  (claim_C3_fetch_failure_atomicity [("k", (⟨some 9, 0, 1000⟩ : CacheEntry Nat))]
      "k" none 0 0 3).1 ⟨some 9, 0, 1000⟩ 9 (by decide) (by decide) rfl
    (Except.error 3)

/-- C3 counterexample, as stated: `k` holds a still-valid entry (data
`null`, timestamp 0, ttl 1000, queried at time 0), yet `getOrSet` does
invoke the fetcher and a fetch failure occurs on this "hit". -/
theorem claim_C3_counterexample_null_hit :
    mapLookup [("k", (⟨none, 0, 1000⟩ : CacheEntry Nat))] "k"
      = some ⟨none, 0, 1000⟩ ∧
    (0 : Int) - 0 ≤ 1000 ∧
    (SimpleCache.getOrSet [("k", (⟨none, 0, 1000⟩ : CacheEntry Nat))] "k"
        (Except.error 7 : Except Nat (Option Nat)) none 0 0).1
      = Except.error 7 := by
  refine ⟨by decide, by decide, rfl⟩

/-- C4 (amended: the fetcher must resolve to a non-null value and the
effective TTL must be nonnegative, and the first call must miss —
otherwise the code re-fetches): two immediate `getOrSet` calls invoke the
fetcher exactly once: the first call reaches the fetch, stores the result
and returns it; the second call is served from cache and its result and
store do not depend on its fetcher at all. -/
theorem claim_C4_single_fetch_on_hit {α ε : Type} (m : CMap α) (k : String)
    (d : α) (ttl? : Option Int) (now : Int)
    (hmiss : (SimpleCache.get m k now).1 = none)
    (httl : 0 ≤ jsOrTTL ttl?) :
    SimpleCache.fetchReached m k now = true ∧
    (SimpleCache.getOrSet m k (Except.ok (some d) : Except ε (Option α))
        ttl? now now).1 = Except.ok (some d) ∧
    SimpleCache.fetchReached
      (SimpleCache.getOrSet m k (Except.ok (some d) : Except ε (Option α))
          ttl? now now).2 k now = false ∧
    (∀ f : Except ε (Option α),
      SimpleCache.getOrSet
        (SimpleCache.getOrSet m k (Except.ok (some d) : Except ε (Option α))
            ttl? now now).2 k f ttl? now now
      = (Except.ok (some d),
         (SimpleCache.getOrSet m k (Except.ok (some d) : Except ε (Option α))
             ttl? now now).2)) := by
  have hstep := getOrSet_miss_ok (ε := ε) ttl? now now (some d) hmiss
  have hl : mapLookup
      (SimpleCache.set (SimpleCache.get m k now).2 k (some d) ttl? now) k
      = some ⟨some d, now, jsOrTTL ttl?⟩ :=
    mapLookup_mapInsert_self _ k ⟨some d, now, jsOrTTL ttl?⟩
  have hvalid : ¬ (jsOrTTL ttl? < now - now) := by
    rw [sub_self]
    exact not_lt.mpr httl
  have hget2 : SimpleCache.get
      (SimpleCache.set (SimpleCache.get m k now).2 k (some d) ttl? now) k now
      = (some d,
         SimpleCache.set (SimpleCache.get m k now).2 k (some d) ttl? now) :=
    get_eq_of_lookup_valid hl hvalid
  refine ⟨?_, ?_, ?_, ?_⟩
  · simp [SimpleCache.fetchReached, hmiss]
  · rw [hstep]
  · rw [hstep]
    simp [SimpleCache.fetchReached, hget2]
  · intro f
    rw [hstep]
    have hhit : (SimpleCache.get
        (SimpleCache.set (SimpleCache.get m k now).2 k (some d) ttl? now)
        k now).1 = some d := by rw [hget2]
    rw [getOrSet_hit ttl? now now f hhit, hget2]

/-- Witness for C4: after a first `getOrSet` that fetched `5`, the second
call does not reach its fetcher. -/
theorem claim_C4_witness :
    SimpleCache.fetchReached
      (SimpleCache.getOrSet ([] : CMap Nat) "k"
          (Except.ok (some 5) : Except Unit (Option Nat)) (some 1000) 0 0).2
      "k" 0 = false :=
  (claim_C4_single_fetch_on_hit [] "k" 5 (some 1000) 0 (by decide)
    (by decide)).2.2.1

/-- C4 counterexample, as stated over every fetcher: with a fetcher that
resolves to `null`, the first call reaches the fetch — and so does the
second immediate call (the cached null fails the `cached !== null` test),
so the fetcher is invoked twice, not exactly once. -/
theorem claim_C4_counterexample_null_fetch :
    SimpleCache.fetchReached ([] : CMap Nat) "k" 0 = true ∧
    SimpleCache.fetchReached
      (SimpleCache.getOrSet ([] : CMap Nat) "k"
          (Except.ok none : Except Unit (Option Nat)) (some 1000) 0 0).2
      "k" 0 = true := ⟨rfl, rfl⟩

/-- C7: a fetched `null` is stored by `set` but never served: every later
`get(k)` reports null (missing and cached-null are indistinguishable),
`getOrSet` always reaches the fetch again for `k`, and a second
`getOrSet`'s outcome is exactly its own fetcher's outcome. -/
theorem claim_C7_null_never_served {α ε : Type} (m : CMap α) (k : String)
    (ttl? : Option Int) (nowG nowS : Int)
    (hmiss : (SimpleCache.get m k nowG).1 = none) :
    (SimpleCache.getOrSet m k (Except.ok none : Except ε (Option α))
        ttl? nowG nowS).1 = Except.ok none ∧
    mapLookup (SimpleCache.getOrSet m k
        (Except.ok none : Except ε (Option α)) ttl? nowG nowS).2 k
      = some ⟨none, nowS, jsOrTTL ttl?⟩ ∧
    (∀ t, (SimpleCache.get (SimpleCache.getOrSet m k
        (Except.ok none : Except ε (Option α)) ttl? nowG nowS).2 k t).1
      = none) ∧
    (∀ t, SimpleCache.fetchReached (SimpleCache.getOrSet m k
        (Except.ok none : Except ε (Option α)) ttl? nowG nowS).2 k t = true) ∧
    (∀ (f : Except ε (Option α)) (t t' : Int),
      (SimpleCache.getOrSet (SimpleCache.getOrSet m k
          (Except.ok none : Except ε (Option α)) ttl? nowG nowS).2
        k f ttl? t t').1 = f) := by
  have hstep := getOrSet_miss_ok (ε := ε) ttl? nowG nowS (none : Option α) hmiss
  have hl : mapLookup
      (SimpleCache.set (SimpleCache.get m k nowG).2 k none ttl? nowS) k
      = some ⟨none, nowS, jsOrTTL ttl?⟩ :=
    mapLookup_mapInsert_self _ k ⟨none, nowS, jsOrTTL ttl?⟩
  have hnull : ∀ t, (SimpleCache.get
      (SimpleCache.set (SimpleCache.get m k nowG).2 k none ttl? nowS) k t).1
      = none := by
    intro t
    by_cases hv : (jsOrTTL ttl?) < t - nowS
    · rw [get_eq_of_lookup_expired hl hv]
    · rw [get_eq_of_lookup_valid hl hv]
  refine ⟨?_, ?_, ?_, ?_, ?_⟩
  · rw [hstep]
  · rw [hstep]
    exact hl
  · intro t
    rw [hstep]
    exact hnull t
  · intro t
    rw [hstep]
    simp [SimpleCache.fetchReached, hnull t]
  · intro f t t'
    rw [hstep]
    have h2 := hnull t
    simp only [SimpleCache.getOrSet, h2]
    cases f <;> rfl

/-- Witness for C7: a null fetched into an empty cache is returned but the
next `getOrSet` on the same key reaches its fetcher again. -/
theorem claim_C7_witness :
    (SimpleCache.getOrSet ([] : CMap Nat) "k"
        (Except.ok none : Except Unit (Option Nat)) (some 60000) 0 0).1
      = Except.ok none ∧
    SimpleCache.fetchReached
      (SimpleCache.getOrSet ([] : CMap Nat) "k"
          (Except.ok none : Except Unit (Option Nat)) (some 60000) 0 0).2
      "k" 0 = true := by
  have h := claim_C7_null_never_served (ε := Unit) ([] : CMap Nat) "k"
    (some 60000) 0 0 (by decide)
  exact ⟨h.1, h.2.2.2.1 0⟩

theorem jsOrStr_none (d : String) : jsOrStr none d = d := rfl

theorem jsOrStr_some_ne {s : String} (d : String) (h : s ≠ "") :
    jsOrStr (some s) d = s := by
  simp [jsOrStr, h]

/-- C5 (amended: distinct present scopes must not be the empty string, and
a present scope aliases the absent one exactly when it is the falsy `""`
or the sentinel `"all"` itself): the builders are deterministic total
functions, an absent scope always serializes to the sentinel `all`, and
any two scope qualifiers that avoid `""` and `"all"` produce distinct
keys — for `placeReviews`, `userReviews` and `placesWithReviews` alike. -/
theorem claim_C5_key_builder_scopes (id g g₁ g₂ : String) :
    cacheKeys.placeReviews id none = "place:" ++ id ++ ":reviews:" ++ "all" ∧
    cacheKeys.userReviews id none = "user:" ++ id ++ ":reviews:" ++ "all" ∧
    cacheKeys.placesWithReviews none = "places:reviews:" ++ "all" ∧
    (g ≠ "all" → g ≠ "" →
      cacheKeys.placeReviews id (some g) ≠ cacheKeys.placeReviews id none ∧
      cacheKeys.userReviews id (some g) ≠ cacheKeys.userReviews id none ∧
      cacheKeys.placesWithReviews (some g) ≠ cacheKeys.placesWithReviews none) ∧
    (g₁ ≠ g₂ → g₁ ≠ "" → g₂ ≠ "" →
      cacheKeys.placeReviews id (some g₁) ≠ cacheKeys.placeReviews id (some g₂) ∧
      cacheKeys.userReviews id (some g₁) ≠ cacheKeys.userReviews id (some g₂) ∧
      cacheKeys.placesWithReviews (some g₁) ≠ cacheKeys.placesWithReviews (some g₂)) := by
  refine ⟨rfl, rfl, rfl, ?_, ?_⟩
  · intro hall hne
    refine ⟨?_, ?_, ?_⟩
    · intro h
      rw [cacheKeys.placeReviews, cacheKeys.placeReviews,
        jsOrStr_some_ne "all" hne, jsOrStr_none] at h
      exact hall (strAppend_cancel_left h)
    · intro h
      rw [cacheKeys.userReviews, cacheKeys.userReviews,
        jsOrStr_some_ne "all" hne, jsOrStr_none] at h
      exact hall (strAppend_cancel_left h)
    · intro h
      rw [cacheKeys.placesWithReviews, cacheKeys.placesWithReviews,
        jsOrStr_some_ne "all" hne, jsOrStr_none] at h
      exact hall (strAppend_cancel_left h)
  · intro h12 h1 h2
    refine ⟨?_, ?_, ?_⟩
    · intro h
      rw [cacheKeys.placeReviews, cacheKeys.placeReviews,
        jsOrStr_some_ne "all" h1, jsOrStr_some_ne "all" h2] at h
      exact h12 (strAppend_cancel_left h)
    · intro h
      rw [cacheKeys.userReviews, cacheKeys.userReviews,
        jsOrStr_some_ne "all" h1, jsOrStr_some_ne "all" h2] at h
      exact h12 (strAppend_cancel_left h)
    · intro h
      rw [cacheKeys.placesWithReviews, cacheKeys.placesWithReviews,
        jsOrStr_some_ne "all" h1, jsOrStr_some_ne "all" h2] at h
      exact h12 (strAppend_cancel_left h)

/-- Witness for C5: a real group scope differs from the ungrouped view. -/
theorem claim_C5_witness :
    cacheKeys.placeReviews "p1" (some "g1") ≠ cacheKeys.placeReviews "p1" none :=
  ((claim_C5_key_builder_scopes "p1" "g1" "x" "y").2.2.2.1 (by decide)
    (by decide)).1

/-- C5 counterexample, as stated over every present scope: the present
scope `"all"` (and likewise the falsy `""`) aliases the absent scope —
distinct qualifiers, identical key. -/
theorem claim_C5_counterexample_all_alias :
    cacheKeys.placeReviews "p1" (some "all") = cacheKeys.placeReviews "p1" none ∧
    (some "all" : Option String) ≠ none ∧
    cacheKeys.placeReviews "p1" (some "") = cacheKeys.placeReviews "p1" none ∧
    (some "" : Option String) ≠ none := by
  refine ⟨rfl, by decide, rfl, by decide⟩

/-- The key set claim C6 attributes to a successful review creation for
place `P` by author `U` in group `G`, spelled with the `cacheKeys`
builders (the review summary has no builder; its key shape is the literal
used by `createReview` and `PlaceDetailScreen`). -/
def claimedCreateReviewKeys (P U G : String) : List String :=
  [ cacheKeys.placeReviews P (some G), cacheKeys.placeReviews P none
  , cacheKeys.userReviews U (some G), cacheKeys.userReviews U none
  , cacheKeys.placesWithReviews (some G), cacheKeys.placesWithReviews none
  , "place-summary:" ++ P ++ ":" ++ G, "place-summary:" ++ P ++ ":all" ]

theorem claimed_eq_createReviewKeys (P U G : String) (hG : G ≠ "") :
    claimedCreateReviewKeys P U G = createReviewInvalidationKeys P U (some G) := by
  simp only [claimedCreateReviewKeys, createReviewInvalidationKeys,
    cacheKeys.placeReviews, cacheKeys.userReviews, cacheKeys.placesWithReviews,
    jsOrStr_some_ne "all" hG, jsOrStr_some_ne "no-group" hG, jsOrStr_none,
    String.append_assoc,
    show (":reviews:" ++ "all" : String) = ":reviews:all" from rfl,
    show ("places:reviews:" ++ "all" : String) = "places:reviews:all" from rfl]

/-- C6: after a successful creation of a review for place `P` by author
`U` in a present group `G`, the local-mutation trigger deletes exactly the
eight claimed keys — `placeReviews(P,G)`, `placeReviews(P,all)`,
`userReviews(U,G)`, `userReviews(U,all)`, `placesWithReviews(G)`,
`placesWithReviews(all)` and the place's review-summary key for `G` and
`all` — leaving every other entry untouched; each deleted key then misses,
so a subsequent `getOrSet` on it reaches its fetcher. -/
theorem claim_C6_review_creation_invalidation {α : Type} (m : CMap α)
    (P U G : String) (hG : G ≠ "") :
    (∀ key, mapLookup (createReviewInvalidate P U (some G) m) key
        = if key ∈ claimedCreateReviewKeys P U G then none
          else mapLookup m key) ∧
    (∀ key ∈ claimedCreateReviewKeys P U G, ∀ t,
      SimpleCache.fetchReached (createReviewInvalidate P U (some G) m)
        key t = true) := by
  have he := claimed_eq_createReviewKeys P U G hG
  have hchar : ∀ key, mapLookup (createReviewInvalidate P U (some G) m) key
      = if key ∈ claimedCreateReviewKeys P U G then none
        else mapLookup m key := by
    intro key
    rw [createReviewInvalidate, ← he, mapLookup_invalidateKeys]
  refine ⟨hchar, fun key hkey t => ?_⟩
  have h0 : mapLookup (createReviewInvalidate P U (some G) m) key = none := by
    rw [hchar key, if_pos hkey]
  simp [SimpleCache.fetchReached, get_eq_of_lookup_none h0]

/-- Witness for C6: a cached grouped review list for `("P1","G1")` misses
after the creation trigger runs. -/
theorem claim_C6_witness :
    mapLookup
      (createReviewInvalidate "P1" "U1" (some "G1")
        [(cacheKeys.placeReviews "P1" (some "G1"),
          (⟨some 1, 0, 1000⟩ : CacheEntry Nat))])
      (cacheKeys.placeReviews "P1" (some "G1")) = none := by
  rw [(claim_C6_review_creation_invalidation
    [(cacheKeys.placeReviews "P1" (some "G1"),
      (⟨some 1, 0, 1000⟩ : CacheEntry Nat))] "P1" "U1" "G1" (by decide)).1]
  rw [if_pos (by decide)]

/-- C9 (amended: the builder arguments must be clean — no `:` inside an
id or scope, and no argument equal to the literal `no-group` — since the
builders are total and `placeReviews(P, "no-group")` is precisely the
sentinel key): on any store whose keys were produced by the `cacheKeys`
builders from clean arguments, the `no-group`-sentinel deletions issued by
`createReview` for an absent `group_id` remove nothing and leave the store
unchanged; those sentinel keys are a subset of the calls `createReview`
actually issues when `group_id` is absent. -/
theorem claim_C9_no_group_frame {α : Type} (m : CMap α) (P U : String)
    (hP : CleanArg P) (hU : CleanArg U)
    (hm : ∀ e ∈ m, BuiltKey e.1) :
    invalidateKeys m (noGroupInvalidationKeys P U) = m ∧
    (∀ k ∈ noGroupInvalidationKeys P U,
      k ∈ createReviewInvalidationKeys P U none) := by
  constructor
  · apply invalidateKeys_of_absent
    intro k hk
    apply mapLookup_eq_none_of_no_key
    intro e he heq
    exact builtKey_ne_noGroupKeys P U e.1 hP.1 hU.1 (hm e he) (heq ▸ hk)
  · intro k hk
    simp only [noGroupInvalidationKeys, List.mem_cons, List.not_mem_nil,
      or_false] at hk
    simp only [createReviewInvalidationKeys, jsOrStr_none, List.mem_cons,
      List.not_mem_nil, or_false]
    have e1 : "place:" ++ P ++ ":reviews:" ++ "no-group"
        = "place:" ++ P ++ ":reviews:no-group" := by
      rw [String.append_assoc]; rfl
    have e2 : "user:" ++ U ++ ":reviews:" ++ "no-group"
        = "user:" ++ U ++ ":reviews:no-group" := by
      rw [String.append_assoc]; rfl
    have e3 : ("places:reviews:" ++ "no-group" : String)
        = "places:reviews:no-group" := rfl
    have e4 : "place-summary:" ++ P ++ ":" ++ "no-group"
        = "place-summary:" ++ P ++ ":no-group" := by
      rw [String.append_assoc]; rfl
    rcases hk with h | h | h | h
    · exact Or.inl (by rw [e1, h])
    · exact Or.inr (Or.inr (Or.inl (by rw [e2, h])))
    · exact Or.inr (Or.inr (Or.inr (Or.inr (Or.inl (by rw [e3, h])))))
    · exact Or.inr (Or.inr (Or.inr (Or.inr (Or.inr (Or.inr (Or.inl
        (by rw [e4, h])))))))

/-- Witness for C9: a store holding only `userGroups("u1")` is untouched
by the four sentinel deletions. -/
theorem claim_C9_witness :
    invalidateKeys
      [(cacheKeys.userGroups "u1", (⟨some 2, 0, 99⟩ : CacheEntry Nat))]
      (noGroupInvalidationKeys "P1" "U1")
      = [(cacheKeys.userGroups "u1", (⟨some 2, 0, 99⟩ : CacheEntry Nat))] := by
  refine (claim_C9_no_group_frame
    [(cacheKeys.userGroups "u1", (⟨some 2, 0, 99⟩ : CacheEntry Nat))]
    "P1" "U1" ⟨by decide, by decide⟩ ⟨by decide, by decide⟩ ?_).1
  intro e he
  simp only [List.mem_singleton] at he
  rw [he]
  exact BuiltKey.userGroups "u1" ⟨by decide, by decide⟩

/-- C9 counterexample, as stated over every builder-produced store: the
builders are total, and `placeReviews("P", "no-group")` is itself the
sentinel key `place:P:reviews:no-group`, so a store holding that
builder-produced key is emptied by the sentinel deletions. -/
theorem claim_C9_counterexample_builder_sentinel :
    cacheKeys.placeReviews "P" (some "no-group") = "place:P:reviews:no-group" ∧
    invalidateKeys
      [(cacheKeys.placeReviews "P" (some "no-group"),
        (⟨some 1, 0, 9⟩ : CacheEntry Nat))]
      (noGroupInvalidationKeys "P" "U") = [] ∧
    [(cacheKeys.placeReviews "P" (some "no-group"),
      (⟨some 1, 0, 9⟩ : CacheEntry Nat))] ≠ ([] : CMap Nat) := by
  refine ⟨rfl, by decide, by decide⟩

/-- C2: `invalidatePattern`'s dual interpretation.  When the pattern
contains none of `^`, `$`, `.*` it is escaped and used as a literal
substring test: exactly the keys containing the pattern as a substring
are deleted, all others are untouched (`containsSub a b` coincides with
list-infix containment).  Otherwise the pattern is compiled as a full
regular expression and exactly the keys the regex tests positive on are
deleted.  In particular, on the stored keys `place:1:reviews:all`,
`place:1:reviews:g1` and `place:2:reviews:all`,
`invalidatePattern("place:1:reviews")` removes exactly the first two. -/
theorem claim_C2_invalidatePattern_modes {α : Type} (m : CMap α)
    (p : String) :
    ((isSimplePattern p = true →
      ∃ m', invalidatePattern m p = some m' ∧
        ∀ k, mapLookup m' k
          = if containsSub p k then none else mapLookup m k) ∧
     (isSimplePattern p = false →
      ∀ r, parseRegex p = some r →
        ∃ m', invalidatePattern m p = some m' ∧
          ∀ k, mapLookup m' k
            = if regexTest r k then none else mapLookup m k)) ∧
    (∀ a b : String, containsSub a b = true ↔ a.data <:+: b.data) ∧
    (∀ e₁ e₂ e₃ : CacheEntry α,
      invalidatePattern
        [("place:1:reviews:all", e₁), ("place:1:reviews:g1", e₂),
         ("place:2:reviews:all", e₃)]
        "place:1:reviews"
      = some [("place:2:reviews:all", e₃)]) := by
  refine ⟨⟨?_, ?_⟩, ?_, ?_⟩
  · intro hs
    refine ⟨m.filter (fun e => !(containsSub p e.1)),
      invalidatePattern_simple m p hs, fun k => ?_⟩
    have hf := mapLookup_filterKey (fun key => !(containsSub p key)) m k
    cases hc : containsSub p k <;> simp [hf, hc]
  · intro hs r hr
    refine ⟨m.filter (fun e => !(regexTest r e.1)), ?_, fun k => ?_⟩
    · unfold invalidatePattern
      rw [if_neg (by simp [hs])]
      simp only [hr]
    · have hf := mapLookup_filterKey (fun key => !(regexTest r key)) m k
      cases hc : regexTest r k <;> simp [hf, hc]
  · intro a b
    exact isSubChars_infix_iff a.data b.data
  · intro e₁ e₂ e₃
    rw [invalidatePattern_simple _ _ (by decide)]
    simp [List.filter_cons,
      show containsSub "place:1:reviews" "place:1:reviews:all" = true from
        by decide,
      show containsSub "place:1:reviews" "place:1:reviews:g1" = true from
        by decide,
      show containsSub "place:1:reviews" "place:2:reviews:all" = false from
        by decide]

/-- Witness for C2: substring mode on a one-entry store whose key
contains the pattern. -/
theorem claim_C2_witness :
    ∃ m', invalidatePattern
        [("place:1:reviews:all", (⟨some 1, 0, 9⟩ : CacheEntry Nat))]
        "place:1:reviews" = some m' ∧
      ∀ k, mapLookup m' k
        = if containsSub "place:1:reviews" k then none
          else mapLookup
            [("place:1:reviews:all", (⟨some 1, 0, 9⟩ : CacheEntry Nat))] k :=
  (claim_C2_invalidatePattern_modes
    [("place:1:reviews:all", (⟨some 1, 0, 9⟩ : CacheEntry Nat))]
    "place:1:reviews").1.1 (by decide)
